import Mathlib

/-!
# Verification of the meeting-scheduler core (`src/cweb.c`)

A shallow embedding of the scheduler core of `cweb.c` (the current
implementation; `scheduler_web.c` is an older near-duplicate that lacks the
fortnightly-pairing logic).  C `double` hour values are modelled as `ℚ`: every
hour quantity the program manipulates is a small multiple of `1/2` (and the
constants `2.5`, `17.0`, `1e9`), all of which IEEE doubles represent and
compare exactly, so ℚ is a faithful model.  The C `rand()` stream is passed in
as an explicit list of naturals.  Scheduler state is passed and returned
functionally; the C code mutates in place, so each operation returns the
(possibly partially mutated) state together with its `bool` result.
-/

namespace CWeb

def MAX_DAYS : Nat := 4
def MAX_WEEKS : Nat := 4
def MAX_SLOTS : Nat := 14

def DAYS : List String := ["Monday", "Tuesday", "Wednesday", "Thursday"]

def TIME_SLOTS : List String :=
  ["09:00", "09:30", "10:00", "10:30", "11:00", "11:30",
   "13:00", "13:30", "14:00", "14:30", "15:00", "15:30",
   "16:00", "16:30"]

def BREAK_SLOTS : List String := ["12:00", "12:30"]

def FREQUENCIES : List String := ["weekly", "fortnightly", "third_week", "monthly"]

/-- `Meeting` struct of `cweb.c`.  The C field `type` is a Lean keyword and is
rendered `mtype`.  `preferred_hours` models the `int[8]` array (list of the
array entries; `-1` terminates the meaningful prefix). -/
structure Meeting where
  name : String
  mtype : String
  duration : Int
  preferred_hours : List Int
  fixed_day : String
  fixed_time : String
  frequency : String
deriving Repr, DecidableEq

/-- `Reservation` struct of `cweb.c` (duration stored in 30-minute slots). -/
structure Reservation where
  day : String
  start_time : String
  duration : Nat
deriving Repr, DecidableEq

/-- `ScheduleEntry` struct of `cweb.c`.  `week`, `day` and `start_time` are
always written from loop indices in `0..3` / `0..13`, hence `Nat`. -/
structure ScheduleEntry where
  week : Nat
  day : Nat
  start_time : Nat
  name : String
  mtype : String
  duration : Int
  frequency : String
deriving Repr, DecidableEq

/-- The `blocked_slots[MAX_WEEKS][MAX_DAYS][MAX_SLOTS]` array: week → day →
slot → occupied. -/
def Grid : Type := Nat → Nat → Nat → Bool

/-- `MeetingScheduler` struct of `cweb.c`. -/
structure MeetingScheduler where
  schedule : List ScheduleEntry
  reservations : List Reservation
  total_hours : Nat → ℚ
  meeting_hours : Nat → ℚ
  blocked_slots : Grid

/-- `init_scheduler`: the all-empty state. -/
def init_scheduler : MeetingScheduler :=
  { schedule := []
    reservations := []
    total_hours := fun _ => 0
    meeting_hours := fun _ => 0
    blocked_slots := fun _ _ _ => false }

/-- `find_slot_index`: linear scan of `TIME_SLOTS`, `-1` if absent. -/
def find_slot_index (time : String) : Int :=
  match TIME_SLOTS.findIdx? (fun t => t = time) with
  | some i => Int.ofNat i
  | none => -1

/-- `find_day_index`: linear scan of `DAYS`, `-1` if absent. -/
def find_day_index (day : String) : Int :=
  match DAYS.findIdx? (fun d => d = day) with
  | some i => Int.ofNat i
  | none => -1

/-- `is_break_slot`: compares with `BREAK_SLOTS[0]` and `BREAK_SLOTS[1]`. -/
def is_break_slot (time : String) : Bool :=
  time = "12:00" ∨ time = "12:30"

/-- `slot_to_hour`.  The C parameter is `int`, but every caller guards
`0 ≤ slot_idx` before calling, so the domain is `Nat`.  `slot_idx / 2 + 9`
plus the break-hour skip at index `6`, plus the half-hour fraction. -/
def slot_to_hour (slot_idx : Nat) : ℚ :=
  let hour : Nat := slot_idx / 2 + 9
  let minute : Nat := slot_idx % 2 * 30
  let hour : Nat := if 6 ≤ slot_idx then hour + 1 else hour
  (hour : ℚ) + (minute : ℚ) / 60

/-- Point update of the grid, `blocked_slots[w][d][i] = true`. -/
def setBlocked (g : Grid) (w d i : Nat) : Grid :=
  fun w1 d1 i1 => if w1 = w ∧ d1 = d ∧ i1 = i then true else g w1 d1 i1

/-- Point update of a per-day hour array, `arr[d] += x`. -/
def addHours (f : Nat → ℚ) (d : Nat) (x : ℚ) : Nat → ℚ :=
  fun d1 => if d1 = d then f d1 + x else f d1

/-- The interleaved conflict-check-and-mark loop of `reserve_slot`
(`for week … for i … { if blocked return false; blocked = true; }`).
The cell list is scanned in the C iteration order; on the first occupied cell
it stops, returning `false` together with the grid as mutated so far. -/
def reserveMark (d start : Nat) : Grid → List (Nat × Nat) → Bool × Grid
  | g, [] => (true, g)
  | g, (w, i) :: rest =>
    if g w d (start + i) then (false, g)
    else reserveMark d start (setBlocked g w d (start + i)) rest

/-- The `(week, i)` pairs visited by the `reserve_slot` marking loop, in
C iteration order: weeks `0..3` outer, slot offsets inner. -/
def reserveCells (duration_slots : Nat) : List (Nat × Nat) :=
  (List.range MAX_WEEKS).flatMap fun w =>
    (List.range duration_slots).map fun i => (w, i)

/-- `reserve_slot` of `cweb.c`, lines 153–196. -/
def reserve_slot (s : MeetingScheduler) (day start_time : String)
    (duration_minutes : Int) : Bool × MeetingScheduler :=
  let day_idx := find_day_index day
  let start_idx := find_slot_index start_time
  if day_idx = -1 ∨ start_idx = -1 ∨ duration_minutes % 30 ≠ 0 ∨
      duration_minutes < 30 ∨ duration_minutes > 90 then
    (false, s)
  else
    let duration_slots : Nat := duration_minutes.toNat / 30
    let d : Nat := day_idx.toNat
    let start : Nat := start_idx.toNat
    let start_hour := slot_to_hour start
    let end_hour := start_hour + (duration_slots : ℚ) * (1 / 2)
    if end_hour > 17 ∨ is_break_slot start_time then (false, s)
    else if (List.range duration_slots).any (fun i =>
        MAX_SLOTS ≤ start + i ∨ is_break_slot (TIME_SLOTS.getD (start + i) "")) then
      (false, s)
    else
      match reserveMark d start s.blocked_slots (reserveCells duration_slots) with
      | (false, g) => (false, { s with blocked_slots := g })
      | (true, g) =>
        (true,
          { s with
            blocked_slots := g
            reservations := s.reservations ++ [⟨day, start_time, duration_slots⟩]
            total_hours := addHours s.total_hours d ((duration_slots : ℚ) * (1 / 2) * MAX_WEEKS) })

/-- `is_valid_slot` of `cweb.c`, lines 199–219. -/
def is_valid_slot (s : MeetingScheduler) (week day_idx : Nat) (start_idx : Int)
    (duration_slots : Int) : Bool :=
  if start_idx < 0 ∨ MAX_SLOTS ≤ start_idx ∨
      is_break_slot (TIME_SLOTS.getD start_idx.toNat "") then false
  else
    let start_hour := slot_to_hour start_idx.toNat
    let end_hour := start_hour + (duration_slots : ℚ) * (1 / 2)
    if end_hour > 17 then false
    else
      (List.range duration_slots.toNat).all fun i =>
        let slot_idx := start_idx.toNat + i
        ¬(MAX_SLOTS ≤ slot_idx ∨ is_break_slot (TIME_SLOTS.getD slot_idx "") ∨
          s.blocked_slots week day_idx slot_idx)

/-- Occurrence count by frequency (`cweb.c` lines 226–228): `weekly → 4`,
`fortnightly → 2`, `third_week → 1`, anything else `→ 1`. -/
def occurrencesOf (freq : String) : Nat :=
  if freq = "weekly" then 4
  else if freq = "fortnightly" then 2
  else if freq = "third_week" then 1
  else 1

/-- One compare-exchange of the bubble sort on `day_order`: the smaller-load
day (strict `>` triggers the swap) moves in front. -/
def ceLt (th : Nat → ℚ) (a b : Nat) : Nat := if th a > th b then b else a

/-- The other output of the compare-exchange. -/
def ceGt (th : Nat → ℚ) (a b : Nat) : Nat := if th a > th b then a else b

/-- The bubble sort of `day_order = {0,1,2,3}` by `total_hours` (`cweb.c`
lines 235–246), unrolled to its compare-exchange network: pass 1 compares
positions (0,1), (1,2), (2,3); pass 2 compares (0,1), (1,2); pass 3 compares
(0,1). -/
def sortDays (th : Nat → ℚ) : List Nat :=
  let a1 := ceLt th 0 1
  let b1 := ceGt th 0 1
  let b2 := ceLt th b1 2
  let c2 := ceGt th b1 2
  let c3 := ceLt th c2 3
  let d3 := ceGt th c2 3
  let a4 := ceLt th a1 b2
  let b4 := ceGt th a1 b2
  let b5 := ceLt th b4 c3
  let c5 := ceGt th b4 c3
  let a6 := ceLt th a4 b5
  let b6 := ceGt th a4 b5
  [a6, b6, c5, d3]

/-- `fortnight_pairs[2][2] = {{0,2},{1,3}}`. -/
def fortnight_pairs : List (Nat × Nat) := [(0, 2), (1, 3)]

/-- Length of the meaningful prefix of `preferred_hours`: the C loop
`while (preferred_hours[time_end] >= 0 && time_end < 8) time_end++`.
(The C condition order reads entry 8 out of bounds when all 8 are set; the
model simply stops at 8.) -/
def prefCount (m : Meeting) : Nat :=
  ((m.preferred_hours.take 8).takeWhile fun h => 0 ≤ h).length

/-- The time indices the search loop tries, in order (`cweb.c` lines
264–275): the fixed time alone if given, else the meaningful preferred
entries, else every index `0..13`. -/
def timeCandidates (m : Meeting) (fixed_time_idx : Int) : List Int :=
  if 0 ≤ fixed_time_idx then [fixed_time_idx]
  else if 0 ≤ m.preferred_hours.getD 0 (-1) then
    (List.range (prefCount m)).map fun t => m.preferred_hours.getD t (-1)
  else (List.range MAX_SLOTS).map Int.ofNat

/-- The day indices the search loop visits, in order: the fixed day alone if
given, else `day_order` (sorted by load). -/
def dayIndices (fixed_day_idx : Int) (order : List Nat) : List Nat :=
  if 0 ≤ fixed_day_idx then [fixed_day_idx.toNat] else order

/-- The full candidate sequence evaluated by the search phase of
`add_meeting`, in C iteration order: fortnight pair `p` outermost (a single
pass for non-fortnightly), then days, then times.  Days whose
`meeting_hours/4 > 2.5` are skipped (`continue`), as are out-of-range time
indices. -/
def candList (s : MeetingScheduler) (m : Meeting) (fixed_day_idx fixed_time_idx : Int)
    (max_pairs : Nat) : List (Nat × Nat × Nat) :=
  (List.range max_pairs).flatMap fun p =>
    (dayIndices fixed_day_idx (sortDays s.total_hours)).flatMap fun day =>
      if s.meeting_hours day / 4 > 5 / 2 then []
      else
        (timeCandidates m fixed_time_idx).filterMap fun ti =>
          if ti < 0 ∨ (MAX_SLOTS : Int) ≤ ti then none else some (p, day, ti.toNat)

/-- The non-fortnightly valid-week counting loop (`cweb.c` lines 291–300):
scan weeks in order, skip already-assigned ones (`continue`), count valid
ones and accumulate `total_hours[day] + duration*0.5`, break once the count
reaches `occurrences`. -/
def weekScan (s : MeetingScheduler) (asg : Nat → Bool) (day : Nat) (ti dur : Int)
    (occ : Nat) : List Nat → Nat × ℚ → Nat × ℚ
  | [], st => st
  | w :: ws, (cnt, avg) =>
    if asg w then weekScan s asg day ti dur occ ws (cnt, avg)
    else
      let st1 :=
        if is_valid_slot s w day ti dur then
          (cnt + 1, avg + (s.total_hours day + (dur : ℚ) * (1 / 2)))
        else (cnt, avg)
      if occ ≤ st1.1 then st1 else weekScan s asg day ti dur occ ws st1

/-- Evaluation of one search candidate `(p, day, time)`: its
`(valid_weeks, avg_hours)` pair (`cweb.c` lines 278–301). -/
def evalCand (s : MeetingScheduler) (freq : String) (dur : Int) (occ : Nat)
    (asg : Nat → Bool) (c : Nat × Nat × Nat) : Nat × ℚ :=
  if freq = "fortnightly" then
    let pr := fortnight_pairs.getD c.1 (0, 0)
    if is_valid_slot s pr.1 c.2.1 (Int.ofNat c.2.2) dur &&
        is_valid_slot s pr.2 c.2.1 (Int.ofNat c.2.2) dur then
      (2, s.total_hours c.2.1 + (dur : ℚ) * (1 / 2))
    else (0, 0)
  else weekScan s asg c.2.1 (Int.ofNat c.2.2) dur occ [0, 1, 2, 3] (0, 0)

/-- The min-tracking fold of the search (`min_hours` starts at `1e9`,
`chosen_day`/`chosen_time` start at `-1`, modelled as `none`): a candidate
replaces the current choice iff it qualifies and its score is strictly
smaller than the current minimum. -/
def selMin {α : Type} (ok : α → Bool) (score : α → ℚ) :
    List α → ℚ × Option α → ℚ × Option α
  | [], st => st
  | c :: l, (mh, ch) =>
    selMin ok score l (if ok c = true ∧ score c < mh then (score c, some c) else (mh, ch))

/-- Qualification test of a candidate: `valid_weeks >= occurrences`. -/
def candOk (s : MeetingScheduler) (freq : String) (dur : Int) (occ : Nat)
    (c : Nat × Nat × Nat) : Bool :=
  occ ≤ (evalCand s freq dur occ (fun _ => false) c).1

/-- Score of a candidate: `avg_hours / valid_weeks`. -/
def candScore (s : MeetingScheduler) (freq : String) (dur : Int) (occ : Nat)
    (c : Nat × Nat × Nat) : ℚ :=
  (evalCand s freq dur occ (fun _ => false) c).2 /
    ((evalCand s freq dur occ (fun _ => false) c).1 : ℚ)

/-- `int weeks[] = {0,1,2,3}` shuffled by
`for (i = 3; i > 0; i--) { j = rand() % (i+1); swap(weeks[i], weeks[j]); }`,
with the successive `rand()` values supplied as `rnd`. -/
def swapList (l : List Nat) (i j : Nat) : List Nat :=
  (l.set i (l.getD j 0)).set j (l.getD i 0)

def shuffleWeeks (rnd : List Nat) : List Nat :=
  let l1 := swapList [0, 1, 2, 3] 3 (rnd.getD 0 0 % 4)
  let l2 := swapList l1 2 (rnd.getD 1 0 % 3)
  swapList l2 1 (rnd.getD 2 0 % 2)

/-- The `ScheduleEntry` written for one committed occurrence. -/
def mkEntry (m : Meeting) (w day ti : Nat) (dur : Int) : ScheduleEntry :=
  { week := w, day := day, start_time := ti, name := m.name, mtype := m.mtype,
    duration := dur, frequency := m.frequency }

/-- Mark the `duration` covered slots of one occurrence in week `w`. -/
def blockRange (g : Grid) (w day ti : Nat) (dur : Int) : Grid :=
  (List.range dur.toNat).foldl (fun g1 i => setBlocked g1 w day (ti + i)) g

/-- Commit one occurrence: append the entry, add `duration*0.5` hours to both
per-day arrays, and mark the covered slots in week `w`. -/
def applyOcc (s : MeetingScheduler) (m : Meeting) (day ti : Nat) (dur : Int)
    (w : Nat) : MeetingScheduler :=
  { schedule := s.schedule ++ [mkEntry m w day ti dur]
    reservations := s.reservations
    total_hours := addHours s.total_hours day ((dur : ℚ) * (1 / 2))
    meeting_hours := addHours s.meeting_hours day ((dur : ℚ) * (1 / 2))
    blocked_slots := blockRange s.blocked_slots w day ti dur }

/-- The week-picking scan of the commit loop: first week in shuffled order
that is not yet assigned and is valid. -/
def findWeek (s : MeetingScheduler) (asg : Nat → Bool) (weeks : List Nat)
    (day : Nat) (ti dur : Int) : Option Nat :=
  weeks.find? fun w => !asg w && is_valid_slot s w day ti dur

/-- The non-fortnightly commit loop (`cweb.c` lines 361–391): one occurrence
per iteration; if no unassigned valid week remains the call returns `false`
with the occurrences already committed left applied (no rollback). -/
def commitLoop (m : Meeting) (day ti : Nat) (dur : Int) (weeks : List Nat) :
    Nat → MeetingScheduler → (Nat → Bool) → Bool × MeetingScheduler
  | 0, s, _ => (true, s)
  | occ + 1, s, asg =>
    match findWeek s asg weeks day (Int.ofNat ti) dur with
    | none => (false, s)
    | some w =>
      commitLoop m day ti dur weeks occ (applyOcc s m day ti dur w)
        (fun w1 => if w1 = w then true else asg w1)

/-- The fortnightly commit (`cweb.c` lines 317–349): first pairing, in the
order `{0,2}` then `{1,3}`, whose both weeks are valid; both its weeks are
committed, else the call fails with no mutation. -/
def commitFortnight (s : MeetingScheduler) (m : Meeting) (day ti : Nat)
    (dur : Int) : Bool × MeetingScheduler :=
  match fortnight_pairs.find? (fun pr =>
      is_valid_slot s pr.1 day (Int.ofNat ti) dur &&
      is_valid_slot s pr.2 day (Int.ofNat ti) dur) with
  | none => (false, s)
  | some pr => (true, applyOcc (applyOcc s m day ti dur pr.1) m day ti dur pr.2)

/-- `add_meeting` of `cweb.c`, lines 223–393.  `rnd` is the stream of
`rand()` values consumed by the week shuffle (the C code seeds `rand` in
`main`; the shuffle is only drawn in the non-fortnightly commit branch). -/
def add_meeting (s : MeetingScheduler) (m : Meeting) (rnd : List Nat) :
    Bool × MeetingScheduler :=
  let duration_slots := m.duration
  let occurrences := occurrencesOf m.frequency
  let fixed_day_idx : Int := if m.fixed_day.isEmpty then -1 else find_day_index m.fixed_day
  let fixed_time_idx : Int := if m.fixed_time.isEmpty then -1 else find_slot_index m.fixed_time
  let max_pairs : Nat := if m.frequency = "fortnightly" then 2 else 1
  let cands := candList s m fixed_day_idx fixed_time_idx max_pairs
  let res := selMin (candOk s m.frequency duration_slots occurrences)
    (candScore s m.frequency duration_slots occurrences) cands (1000000000, none)
  match res.2 with
  | none => (false, s)
  | some c =>
    if m.frequency = "fortnightly" then
      commitFortnight s m c.2.1 c.2.2 duration_slots
    else
      commitLoop m c.2.1 c.2.2 duration_slots (shuffleWeeks rnd) occurrences s
        (fun _ => false)

/-! ## Claim-side definitions and concrete scenario constants -/

/-- Value of a decimal digit character. -/
def digitVal (c : Char) : Nat := c.toNat - 48

/-- Modelled from the spec: the wall-clock decimal hour denoted by a
five-character `"HH:MM"` time label. -/
def labelHour (s : String) : ℚ :=
  match s.toList with
  | [h1, h2, c, m1, m2] =>
    if c = ':' then
      ((digitVal h1 * 10 + digitVal h2 : Nat) : ℚ) +
        ((digitVal m1 * 10 + digitVal m2 : Nat) : ℚ) / 60
    else 0
  | _ => 0

/-- An unset preferred-hours array (all `-1`, as the web layer initializes it). -/
def noPref : List Int := [-1, -1, -1, -1, -1, -1, -1, -1]

/-- A monthly meeting fixed to Monday 09:00, one slot long. -/
def meetMon0900 : Meeting :=
  { name := "m", mtype := "Design", duration := 1, preferred_hours := noPref,
    fixed_day := "Monday", fixed_time := "09:00", frequency := "monthly" }

/-- A weekly 90-minute meeting fixed to Monday 09:00. -/
def meetMonWeekly0900 : Meeting :=
  { name := "w1", mtype := "Design", duration := 3, preferred_hours := noPref,
    fixed_day := "Monday", fixed_time := "09:00", frequency := "weekly" }

/-- A weekly 90-minute meeting fixed to Monday 10:30. -/
def meetMonWeekly1030 : Meeting :=
  { name := "w2", mtype := "Design", duration := 3, preferred_hours := noPref,
    fixed_day := "Monday", fixed_time := "10:30", frequency := "weekly" }

/-- A monthly 30-minute meeting fixed to Monday 13:00. -/
def meetMon1300 : Meeting :=
  { name := "w3", mtype := "Design", duration := 1, preferred_hours := noPref,
    fixed_day := "Monday", fixed_time := "13:00", frequency := "monthly" }

/-- Reachable state with `meeting_hours Monday = 12 > 10`: two weekly
90-minute meetings on Monday. -/
def schedC3 : MeetingScheduler :=
  (add_meeting (add_meeting init_scheduler meetMonWeekly0900 [0, 0, 0]).2
    meetMonWeekly1030 [0, 0, 0]).2

/-- A meeting request no slot can hold (28 slots ends past 17:00 everywhere). -/
def meetTooLong : Meeting :=
  { name := "m", mtype := "Design", duration := 28, preferred_hours := noPref,
    fixed_day := "Monday", fixed_time := "09:00", frequency := "monthly" }

/-- A fortnightly meeting fixed to Monday 09:00, one slot long. -/
def meetMonFort : Meeting :=
  { name := "f", mtype := "Design", duration := 1, preferred_hours := noPref,
    fixed_day := "Monday", fixed_time := "09:00", frequency := "fortnightly" }

/-- A meeting with the undocumented frequency label `"daily"`. -/
def meetDaily : Meeting :=
  { name := "d", mtype := "Design", duration := 1, preferred_hours := noPref,
    fixed_day := "Monday", fixed_time := "09:00", frequency := "daily" }

/-- A monthly meeting fixed to Tuesday 16:30, one slot long. -/
def meetTue1630 : Meeting :=
  { name := "t", mtype := "Design", duration := 1, preferred_hours := noPref,
    fixed_day := "Tuesday", fixed_time := "16:30", frequency := "monthly" }

/-- A monthly meeting fixed to Wednesday 16:30, one slot long. -/
def meetWed1630 : Meeting :=
  { name := "w", mtype := "Design", duration := 1, preferred_hours := noPref,
    fixed_day := "Wednesday", fixed_time := "16:30", frequency := "monthly" }

/-- A monthly meeting fixed to Thursday 16:30, one slot long. -/
def meetThu1630 : Meeting :=
  { name := "h", mtype := "Design", duration := 1, preferred_hours := noPref,
    fixed_day := "Thursday", fixed_time := "16:30", frequency := "monthly" }

/-- Reachable state for the C5 tie-break counterexample: every day has
`total_hours = 0.5`; Monday week 0 slot 0 is blocked (so the pairing `{0,2}`
is broken at Monday 09:00 while `{1,3}` is free), and each other day is
blocked only at week 0 slot 13.  The shuffle stream `[3,2,1]` makes every
shuffle the identity, committing each monthly meeting to week 0. -/
def schedC5 : MeetingScheduler :=
  (add_meeting (add_meeting (add_meeting (add_meeting init_scheduler
    meetMon0900 [3, 2, 1]).2 meetTue1630 [3, 2, 1]).2
    meetWed1630 [3, 2, 1]).2 meetThu1630 [3, 2, 1]).2

/-- A fortnightly request with no fixed day, no fixed time, no preferences. -/
def meetFortFree : Meeting :=
  { name := "x", mtype := "Design", duration := 1, preferred_hours := noPref,
    fixed_day := "", fixed_time := "", frequency := "fortnightly" }

/-- Modelled from the claim (C5): the count of valid weeks of a day/time
candidate — for a fortnightly request, 2 when at least one of the pairings
`{0,2}`, `{1,3}` has both weeks valid; otherwise the number of weeks
`0..3` that are valid. -/
def specValidWeekCount (s : MeetingScheduler) (m : Meeting) (day ti : Nat) : Nat :=
  if m.frequency = "fortnightly" then
    if (is_valid_slot s 0 day (Int.ofNat ti) m.duration &&
        is_valid_slot s 2 day (Int.ofNat ti) m.duration) ||
       (is_valid_slot s 1 day (Int.ofNat ti) m.duration &&
        is_valid_slot s 3 day (Int.ofNat ti) m.duration) then 2 else 0
  else ((List.range 4).filter fun w =>
    is_valid_slot s w day (Int.ofNat ti) m.duration).length

/-- Modelled from the claim (C5): the single nested day-then-time candidate
enumeration (days in load-sorted order, collapsed to the fixed day; capped
days skipped), with no repetition per fortnight pairing. -/
def specCandPairs (s : MeetingScheduler) (m : Meeting) (fdi fti : Int) :
    List (Nat × Nat) :=
  (dayIndices fdi (sortDays s.total_hours)).flatMap fun day =>
    if s.meeting_hours day / 4 > 5 / 2 then []
    else
      (timeCandidates m fti).filterMap fun ti =>
        if ti < 0 ∨ (MAX_SLOTS : Int) ≤ ti then none else some (day, ti.toNat)

/-- Modelled from the claim (C5): among all day/time candidates whose valid
week count reaches the required occurrence count, the one minimizing the mean
over qualifying weeks of `totalHours day + duration * 0.5` (the mean of
identical summands, hence that value), ties broken by the candidate that
comes first in the day-then-time enumeration. -/
def specSelectionRule (s : MeetingScheduler) (m : Meeting) : Option (Nat × Nat) :=
  let occ := occurrencesOf m.frequency
  let fdi : Int := if m.fixed_day.isEmpty then -1 else find_day_index m.fixed_day
  let fti : Int := if m.fixed_time.isEmpty then -1 else find_slot_index m.fixed_time
  let score := fun (c : Nat × Nat) => s.total_hours c.1 + (m.duration : ℚ) * (1 / 2)
  match (specCandPairs s m fdi fti).filter
      (fun c => occ ≤ specValidWeekCount s m c.1 c.2) with
  | [] => none
  | q :: qs => some (qs.foldl (fun best x => if score x < score best then x else best) q)

/-! ## Generic helper lemmas -/

theorem setBlocked_self (g : Grid) (w d i : Nat) : setBlocked g w d i w d i = true := by
  simp [setBlocked]

theorem setBlocked_mono (g : Grid) (w d i w1 d1 i1 : Nat) (h : g w1 d1 i1 = true) :
    setBlocked g w d i w1 d1 i1 = true := by
  unfold setBlocked
  split <;> simp [h]

theorem reserveMark_mono (d start : Nat) (w1 d1 i1 : Nat) :
    ∀ (cells : List (Nat × Nat)) (g : Grid), g w1 d1 i1 = true →
      (reserveMark d start g cells).2 w1 d1 i1 = true := by
  intro cells
  induction cells with
  | nil => intro g h; simpa [reserveMark] using h
  | cons p rest ih =>
    intro g h
    unfold reserveMark
    split
    · simpa using h
    · exact ih _ (setBlocked_mono _ _ _ _ _ _ _ h)

theorem reserveMark_marks (d start : Nat) :
    ∀ (cells : List (Nat × Nat)) (g g1 : Grid),
      reserveMark d start g cells = (true, g1) →
      ∀ p ∈ cells, g1 p.1 d (start + p.2) = true := by
  intro cells
  induction cells with
  | nil => intro g g1 _ p hp; simp at hp
  | cons q rest ih =>
    intro g g1 h p hp
    unfold reserveMark at h
    split at h
    · simp at h
    · rcases List.mem_cons.mp hp with rfl | hp
      · have : (setBlocked g p.1 d (start + p.2)) p.1 d (start + p.2) = true :=
          setBlocked_self _ _ _ _
        have h2 := reserveMark_mono d start p.1 d (start + p.2) rest _ this
        rw [h] at h2
        exact h2
      · exact ih _ _ h p hp

/-! ## Claim C9: slot-index / time-label conversions -/

/-- **C9** (confirmed).  Over all 14 valid labels the conversions are exact
inverses: `slot_to_hour i` is the wall-clock decimal hour of `TIME_SLOTS[i]`
(in particular index 6 maps to 13:00, the hour after the raw 9:00-based value
once `i ≥ 6`), and `find_slot_index (TIME_SLOTS[i]) = i`.  The two break
labels are recognized by `is_break_slot` and are mapped to no index
(`find_slot_index` returns `-1`). -/
theorem slot_time_conversions_exact :
    ((List.range 14).all fun i =>
      decide (slot_to_hour i = labelHour (TIME_SLOTS.getD i "")) &&
      decide (find_slot_index (TIME_SLOTS.getD i "") = Int.ofNat i)) = true ∧
    slot_to_hour 6 = 13 ∧
    is_break_slot "12:00" = true ∧ is_break_slot "12:30" = true ∧
    find_slot_index "12:00" = -1 ∧ find_slot_index "12:30" = -1 := by
  refine ⟨?_, ?_, ?_, ?_, ?_, ?_⟩ <;> with_unfolding_all rfl

/-! ## Claim C4: the Tuesday 14:00 scenario -/

/-- **C4** counterexample: on the empty scheduler,
`reserve("Tuesday","14:00",60)` succeeds but the cell (week 0, Tuesday,
slot 10) is *not* occupied, contradicting the claimed slots `{10, 11}`.
The label `"14:00"` has slot index 8 (the index space skips the 12:00–13:00
break), so the covered slots are 8 and 9. -/
theorem reserve_tuesday_slot10_free :
    (reserve_slot init_scheduler "Tuesday" "14:00" 60).1 = true ∧
    (reserve_slot init_scheduler "Tuesday" "14:00" 60).2.blocked_slots 0 1 10 = false :=
  ⟨by with_unfolding_all rfl, by with_unfolding_all rfl⟩

/-- **C4** (corrected).  Starting from the empty scheduler,
`reserve("Tuesday","14:00",60)` returns true and afterwards the grid cells
(week w, Tuesday, slot **8**) and (week w, Tuesday, slot **9**) are occupied
for every week `w` in 0..3; a subsequent `reserve("Tuesday","14:00",30)`
returns false and leaves the whole scheduler state unchanged. -/
theorem reserve_tuesday_scenario :
    (reserve_slot init_scheduler "Tuesday" "14:00" 60).1 = true ∧
    (reserve_slot init_scheduler "Tuesday" "14:00" 60).2.blocked_slots 0 1 8 = true ∧
    (reserve_slot init_scheduler "Tuesday" "14:00" 60).2.blocked_slots 1 1 8 = true ∧
    (reserve_slot init_scheduler "Tuesday" "14:00" 60).2.blocked_slots 2 1 8 = true ∧
    (reserve_slot init_scheduler "Tuesday" "14:00" 60).2.blocked_slots 3 1 8 = true ∧
    (reserve_slot init_scheduler "Tuesday" "14:00" 60).2.blocked_slots 0 1 9 = true ∧
    (reserve_slot init_scheduler "Tuesday" "14:00" 60).2.blocked_slots 1 1 9 = true ∧
    (reserve_slot init_scheduler "Tuesday" "14:00" 60).2.blocked_slots 2 1 9 = true ∧
    (reserve_slot init_scheduler "Tuesday" "14:00" 60).2.blocked_slots 3 1 9 = true ∧
    reserve_slot (reserve_slot init_scheduler "Tuesday" "14:00" 60).2 "Tuesday" "14:00" 30 =
      (false, (reserve_slot init_scheduler "Tuesday" "14:00" 60).2) := by
  refine ⟨?_, ?_, ?_, ?_, ?_, ?_, ?_, ?_, ?_, ?_⟩ <;> with_unfolding_all rfl

/-! ## Claim C1: the reservation conflict check is interleaved with marking -/

/-- **C1** (code bug).  `reserve_slot` marks cells *while* scanning for
conflicts, so a conflict found in a later week leaves the earlier weeks'
cells newly occupied.  Concretely: after a monthly meeting is committed to
week 1 Monday 09:00 (shuffle stream `[3,2,0]` makes the shuffled week order
`[1,0,2,3]`), the call `reserve("Monday","09:00",30)` returns false — yet it
has set the (week 0, Monday, slot 0) cell, which was free before the call.
The reservation list and `total_hours` are indeed unchanged. -/
theorem reserve_conflict_mutates_grid :
    (add_meeting init_scheduler meetMon0900 [3, 2, 0]).1 = true ∧
    (add_meeting init_scheduler meetMon0900 [3, 2, 0]).2.blocked_slots 1 0 0 = true ∧
    (add_meeting init_scheduler meetMon0900 [3, 2, 0]).2.blocked_slots 0 0 0 = false ∧
    (reserve_slot (add_meeting init_scheduler meetMon0900 [3, 2, 0]).2
      "Monday" "09:00" 30).1 = false ∧
    (reserve_slot (add_meeting init_scheduler meetMon0900 [3, 2, 0]).2
      "Monday" "09:00" 30).2.blocked_slots 0 0 0 = true ∧
    (reserve_slot (add_meeting init_scheduler meetMon0900 [3, 2, 0]).2
      "Monday" "09:00" 30).2.reservations =
      (add_meeting init_scheduler meetMon0900 [3, 2, 0]).2.reservations ∧
    (reserve_slot (add_meeting init_scheduler meetMon0900 [3, 2, 0]).2
      "Monday" "09:00" 30).2.total_hours 0 =
      (add_meeting init_scheduler meetMon0900 [3, 2, 0]).2.total_hours 0 := by
  refine ⟨?_, ?_, ?_, ?_, ?_, ?_, ?_⟩ <;> with_unfolding_all rfl

/-! ## Claim C8: effects of a successful reservation -/

/-- **C8** (confirmed).  Every accepted reservation marks every covered slot
in all four week-planes, appends exactly one `Reservation` record, adds
`durationSlots * 0.5 * 4` hours to the chosen day's `total_hours`, and leaves
`meeting_hours` (and the schedule) unchanged. -/
theorem reserve_slot_success_effects (s : MeetingScheduler) (day start_time : String)
    (dm : Int) (h : (reserve_slot s day start_time dm).1 = true) :
    (∀ w, w < MAX_WEEKS → ∀ i, i < dm.toNat / 30 →
      (reserve_slot s day start_time dm).2.blocked_slots w
        (find_day_index day).toNat ((find_slot_index start_time).toNat + i) = true) ∧
    (reserve_slot s day start_time dm).2.reservations =
      s.reservations ++ [⟨day, start_time, dm.toNat / 30⟩] ∧
    (reserve_slot s day start_time dm).2.total_hours (find_day_index day).toNat =
      s.total_hours (find_day_index day).toNat + ((dm.toNat / 30 : Nat) : ℚ) * (1 / 2) * MAX_WEEKS ∧
    (∀ d1, d1 ≠ (find_day_index day).toNat →
      (reserve_slot s day start_time dm).2.total_hours d1 = s.total_hours d1) ∧
    (reserve_slot s day start_time dm).2.meeting_hours = s.meeting_hours ∧
    (reserve_slot s day start_time dm).2.schedule = s.schedule := by
  simp only [reserve_slot] at h
  split at h
  · simp at h
  next hc1 =>
    split at h
    · simp at h
    next hc2 =>
      split at h
      · simp at h
      next hc3 =>
        split at h
        next g heq => simp at h
        next g heq =>
          simp only [reserve_slot, if_neg hc1, if_neg hc2, if_neg hc3, heq]
          refine ⟨?_, by simp, by simp [addHours], ?_, by simp, by simp⟩
          · intro w hw i hi
            refine reserveMark_marks _ _ _ _ _ heq (w, i) ?_
            simp only [reserveCells, List.mem_flatMap, List.mem_range, List.mem_map]
            exact ⟨w, hw, i, hi, rfl⟩
          · intro d1 hd1
            simp [addHours, hd1]

/-- Witness for C8 at the concrete scenario `reserve("Tuesday","14:00",60)`
on the empty scheduler. -/
theorem reserve_slot_success_effects_witness :
    (reserve_slot init_scheduler "Tuesday" "14:00" 60).2.blocked_slots 3 1 9 = true ∧
    (reserve_slot init_scheduler "Tuesday" "14:00" 60).2.reservations =
      [⟨"Tuesday", "14:00", 2⟩] ∧
    (reserve_slot init_scheduler "Tuesday" "14:00" 60).2.meeting_hours =
      init_scheduler.meeting_hours := by
  have h := reserve_slot_success_effects init_scheduler "Tuesday" "14:00" 60
    (by with_unfolding_all rfl)
  refine ⟨?_, ?_, h.2.2.2.2.1⟩
  · have h2 := h.1 3 (by decide) 1 (by decide)
    have e1 : (find_day_index "Tuesday").toNat = 1 := by with_unfolding_all rfl
    have e2 : (find_slot_index "14:00").toNat + 1 = 9 := by with_unfolding_all rfl
    rw [e1, e2] at h2
    exact h2
  · have h2 := h.2.1
    have e3 : Int.toNat 60 / 30 = 2 := by decide
    rw [e3] at h2
    simpa [init_scheduler] using h2

/-! ## Claim C3: the 2.5-hour meeting cap and fixed days -/

/-- **C3** counterexample: in the reachable state `schedC3` (both weekly
meetings were accepted) Monday's `meeting_hours / 4` exceeds 2.5, Monday
13:00 is free in every week, and yet the fixed-day request for Monday 13:00
fails: the cap skip is *not* bypassed for fixed-day requests. -/
theorem fixed_day_cap_not_bypassed :
    (add_meeting init_scheduler meetMonWeekly0900 [0, 0, 0]).1 = true ∧
    (add_meeting (add_meeting init_scheduler meetMonWeekly0900 [0, 0, 0]).2
      meetMonWeekly1030 [0, 0, 0]).1 = true ∧
    schedC3.meeting_hours 0 / 4 > 5 / 2 ∧
    is_valid_slot schedC3 0 0 6 1 = true ∧
    is_valid_slot schedC3 1 0 6 1 = true ∧
    is_valid_slot schedC3 2 0 6 1 = true ∧
    is_valid_slot schedC3 3 0 6 1 = true ∧
    (add_meeting schedC3 meetMon1300 [0, 0, 0]).1 = false := by
  refine ⟨?_, ?_, ?_, ?_, ?_, ?_, ?_, ?_⟩ <;> with_unfolding_all rfl

/-- Helper: with a fixed day whose meeting cap is exceeded, the candidate
list is empty. -/
theorem candList_fixed_capped (s : MeetingScheduler) (m : Meeting) (d : Nat)
    (fti : Int) (mp : Nat) (hcap : s.meeting_hours d / 4 > 5 / 2) :
    candList s m (Int.ofNat d) fti mp = [] := by
  have h0 : (0 : Int) ≤ Int.ofNat d := Int.ofNat_nonneg d
  simp [candList, dayIndices, h0, hcap]

/-- **C3** (amended).  A day whose `meeting_hours / 4` exceeds 2.5 is never a
search candidate — and this applies equally when the request names that day
as its fixed day: such a fixed-day request is not searched at all and
`add_meeting` fails, returning the state unchanged. -/
theorem meeting_cap_governs_candidates (s : MeetingScheduler) (m : Meeting)
    (rnd : List Nat) (d : Nat) (hfd : m.fixed_day.isEmpty = false)
    (hidx : find_day_index m.fixed_day = Int.ofNat d)
    (hcap : s.meeting_hours d / 4 > 5 / 2) :
    (∀ (fdi fti : Int) (mp : Nat) (c : Nat × Nat × Nat),
      c ∈ candList s m fdi fti mp → ¬(s.meeting_hours c.2.1 / 4 > 5 / 2)) ∧
    add_meeting s m rnd = (false, s) := by
  constructor
  · intro fdi fti mp c hc
    simp only [candList, List.mem_flatMap, List.mem_range] at hc
    obtain ⟨p, _, day, hday, hc⟩ := hc
    by_cases hcapd : s.meeting_hours day / 4 > 5 / 2
    · rw [if_pos hcapd] at hc
      simp at hc
    · rw [if_neg hcapd] at hc
      simp only [List.mem_filterMap] at hc
      obtain ⟨ti, _, hc⟩ := hc
      split at hc
      · simp at hc
      · cases hc
        exact hcapd
  · simp only [add_meeting, hfd]
    rw [if_neg (by simp)]
    rw [hidx, candList_fixed_capped s m d _ _ hcap]
    simp [selMin]

/-- Witness for the amended C3 at the reachable concrete state. -/
theorem meeting_cap_governs_candidates_witness :
    add_meeting schedC3 meetMon1300 [0, 0, 0] = (false, schedC3) := by
  have h := meeting_cap_governs_candidates schedC3 meetMon1300 [0, 0, 0] 0
    (by with_unfolding_all rfl) (by with_unfolding_all rfl) (by with_unfolding_all rfl)
  exact h.2

/-! ## Commit-phase infrastructure -/

theorem shuffleWeeks_perm (rnd : List Nat) : (shuffleWeeks rnd).Perm [0, 1, 2, 3] := by
  unfold shuffleWeeks
  have h1 : rnd.getD 0 0 % 4 < 4 := Nat.mod_lt _ (by norm_num)
  have h2 : rnd.getD 1 0 % 3 < 3 := Nat.mod_lt _ (by norm_num)
  have h3 : rnd.getD 2 0 % 2 < 2 := Nat.mod_lt _ (by norm_num)
  generalize rnd.getD 0 0 % 4 = j1 at h1 ⊢
  generalize rnd.getD 1 0 % 3 = j2 at h2 ⊢
  generalize rnd.getD 2 0 % 2 = j3 at h3 ⊢
  interval_cases j1 <;> interval_cases j2 <;> interval_cases j3 <;> decide

theorem foldl_setBlocked_ne (w day ti w1 d1 i1 : Nat) (h : w1 ≠ w) :
    ∀ (L : List Nat) (g : Grid),
      (L.foldl (fun g1 i => setBlocked g1 w day (ti + i)) g) w1 d1 i1 = g w1 d1 i1 := by
  intro L
  induction L with
  | nil => intro g; rfl
  | cons a L ih =>
    intro g
    rw [List.foldl_cons, ih]
    unfold setBlocked
    rw [if_neg]
    rintro ⟨rfl, -⟩
    exact h rfl

theorem applyOcc_blocked_ne_week (s : MeetingScheduler) (m : Meeting) (day ti : Nat)
    (dur : Int) (w w1 d1 i1 : Nat) (h : w1 ≠ w) :
    (applyOcc s m day ti dur w).blocked_slots w1 d1 i1 = s.blocked_slots w1 d1 i1 :=
  foldl_setBlocked_ne w day ti w1 d1 i1 h _ _

theorem is_valid_slot_state_congr (s s1 : MeetingScheduler) (w day : Nat) (ti dur : Int)
    (h : ∀ i, s.blocked_slots w day i = s1.blocked_slots w day i) :
    is_valid_slot s w day ti dur = is_valid_slot s1 w day ti dur := by
  unfold is_valid_slot
  simp only [h]

theorem is_valid_slot_applyOcc_ne (s : MeetingScheduler) (m : Meeting) (day ti : Nat)
    (dur : Int) (w w1 day1 : Nat) (ti1 dur1 : Int) (h : w1 ≠ w) :
    is_valid_slot (applyOcc s m day ti dur w) w1 day1 ti1 dur1 =
      is_valid_slot s w1 day1 ti1 dur1 :=
  is_valid_slot_state_congr _ _ _ _ _ _
    (fun i => applyOcc_blocked_ne_week s m day ti dur w w1 day1 i h)

theorem findWeek_some (s : MeetingScheduler) (asg : Nat → Bool) (weeks : List Nat)
    (day : Nat) (ti dur : Int) (w : Nat)
    (h : findWeek s asg weeks day ti dur = some w) :
    w ∈ weeks ∧ asg w = false ∧ is_valid_slot s w day ti dur = true := by
  have hm := List.mem_of_find?_eq_some h
  have hp := List.find?_some h
  simp only [Bool.and_eq_true, Bool.not_eq_true'] at hp
  exact ⟨hm, hp.1, hp.2⟩

theorem findWeek_ne_none (s : MeetingScheduler) (asg : Nat → Bool) (weeks : List Nat)
    (day : Nat) (ti dur : Int) (x : Nat) (hx : x ∈ weeks) (h1 : asg x = false)
    (h2 : is_valid_slot s x day ti dur = true) :
    findWeek s asg weeks day ti dur ≠ none := by
  intro hn
  have := List.find?_eq_none.mp hn x hx
  simp [h1, h2] at this

theorem weekScan_count_bound (s : MeetingScheduler) (asg : Nat → Bool) (day : Nat)
    (ti dur : Int) (occ : Nat) :
    ∀ (L : List Nat) (st : Nat × ℚ),
      ∃ sub : List Nat, sub.Sublist L ∧
        (∀ x ∈ sub, asg x = false ∧ is_valid_slot s x day ti dur = true) ∧
        (weekScan s asg day ti dur occ L st).1 ≤ st.1 + sub.length := by
  intro L
  induction L with
  | nil => intro st; exact ⟨[], List.Sublist.refl _, by simp, by simp [weekScan]⟩
  | cons w ws ih =>
    intro st
    obtain ⟨cnt, avg⟩ := st
    by_cases hasg : asg w
    · obtain ⟨sub, hs, hp, hb⟩ := ih (cnt, avg)
      refine ⟨sub, hs.cons w, hp, ?_⟩
      simpa [weekScan, hasg] using hb
    · by_cases hval : is_valid_slot s w day ti dur
      · by_cases hocc : occ ≤ cnt + 1
        · refine ⟨[w], by simp, by simp [hasg, hval], ?_⟩
          simp [weekScan, hasg, hval, hocc]
        · obtain ⟨sub, hs, hp, hb⟩ := ih (cnt + 1, avg + (s.total_hours day + (dur : ℚ) * (1 / 2)))
          refine ⟨w :: sub, hs.cons₂ w, ?_, ?_⟩
          · intro x hx
            rcases List.mem_cons.mp hx with rfl | hx
            · exact ⟨by simpa using hasg, by simpa using hval⟩
            · exact hp x hx
          · have hred : weekScan s asg day ti dur occ (w :: ws) (cnt, avg) =
                weekScan s asg day ti dur occ ws
                  (cnt + 1, avg + (s.total_hours day + (dur : ℚ) * (1 / 2))) := by
              simp [weekScan, hasg, hval, hocc]
            rw [hred, List.length_cons]
            omega
      · by_cases hocc : occ ≤ cnt
        · exact ⟨[], by simp, by simp, by simp [weekScan, hasg, hval, hocc]⟩
        · obtain ⟨sub, hs, hp, hb⟩ := ih (cnt, avg)
          refine ⟨sub, hs.cons w, hp, ?_⟩
          simpa [weekScan, hasg, hval, hocc] using hb

theorem commitLoop_total (m : Meeting) (day ti : Nat) (dur : Int) (weeks : List Nat) :
    ∀ (n : Nat) (s : MeetingScheduler) (asg : Nat → Bool) (sub : List Nat),
      sub.Nodup →
      (∀ x ∈ sub, x ∈ weeks ∧ asg x = false ∧
        is_valid_slot s x day (Int.ofNat ti) dur = true) →
      n ≤ sub.length →
      (commitLoop m day ti dur weeks n s asg).1 = true := by
  intro n
  induction n with
  | zero => intro s asg sub _ _ _; rfl
  | succ k ih =>
    intro s asg sub hnd hsub hlen
    match hsubeq : sub with
    | [] => simp at hlen
    | x :: sub1 =>
      obtain ⟨hxw, hxa, hxv⟩ := hsub x (by simp)
      have hne := findWeek_ne_none s asg weeks day (Int.ofNat ti) dur x hxw hxa hxv
      obtain ⟨w0, hw0⟩ := Option.ne_none_iff_exists'.mp hne
      unfold commitLoop
      rw [hw0]
      refine ih _ _ ((x :: sub1).erase w0) (hnd.erase w0) ?_ ?_
      · intro y hy
        have hyne : y ≠ w0 := ((List.Nodup.mem_erase_iff hnd).mp hy).1
        have hymem := List.mem_of_mem_erase hy
        obtain ⟨h1, h2, h3⟩ := hsub y hymem
        refine ⟨h1, ?_, ?_⟩
        · simp [hyne, h2]
        · rw [is_valid_slot_applyOcc_ne _ _ _ _ _ _ _ _ _ _ hyne]
          exact h3
      · rw [List.length_erase]
        split <;> (simp_all; try omega)

theorem selMin_mem_ok {α : Type} (ok : α → Bool) (score : α → ℚ) :
    ∀ (l : List α) (mh : ℚ) (ch : Option α) (c : α),
      (selMin ok score l (mh, ch)).2 = some c →
      ch = some c ∨ (c ∈ l ∧ ok c = true) := by
  intro l
  induction l with
  | nil =>
    intro mh ch c h
    simp only [selMin] at h
    exact Or.inl h
  | cons a l ih =>
    intro mh ch c h
    unfold selMin at h
    split at h
    · rcases ih _ _ _ h with h1 | h1
      · cases h1
        next ha => exact Or.inr ⟨by simp, by tauto⟩
      · exact Or.inr ⟨List.mem_cons_of_mem a h1.1, h1.2⟩
    · rcases ih _ _ _ h with h1 | h1
      · exact Or.inl h1
      · exact Or.inr ⟨List.mem_cons_of_mem a h1.1, h1.2⟩

theorem candList_fst_lt (s : MeetingScheduler) (m : Meeting) (fdi fti : Int)
    (mp : Nat) : ∀ c ∈ candList s m fdi fti mp, c.1 < mp := by
  intro c hc
  simp only [candList, List.mem_flatMap, List.mem_range] at hc
  obtain ⟨p, hp, day, _, hc⟩ := hc
  split at hc
  · simp at hc
  · simp only [List.mem_filterMap] at hc
    obtain ⟨ti, _, hc⟩ := hc
    split at hc
    · simp at hc
    · cases hc
      exact hp

/-- Core fact behind C7: whenever `add_meeting` returns `false`, the state is
unchanged.  The search phase is read-only, and a successful search always
gives the commit loop enough valid weeks, so the mid-commit failure return of
the C code is unreachable within a single call. -/
theorem add_meeting_false_no_change (s : MeetingScheduler) (m : Meeting) (rnd : List Nat)
    (h : (add_meeting s m rnd).1 = false) : (add_meeting s m rnd).2 = s := by
  simp only [add_meeting] at h ⊢
  split at h
  next heq => simp only [heq]
  next c heq =>
    exfalso
    have hmem := selMin_mem_ok _ _ _ _ _ _ heq
    rcases hmem with hmem | hmem
    · exact Option.noConfusion hmem
    obtain ⟨hcand, hok⟩ := hmem
    simp only [candOk, decide_eq_true_eq] at hok
    split at h
    next hfreq =>
      -- fortnightly: the pairing found by the search is still valid at commit
      simp only [evalCand, if_pos hfreq] at hok
      by_cases hpair :
          (is_valid_slot s (fortnight_pairs.getD c.1 (0, 0)).1 c.2.1 (Int.ofNat c.2.2)
              m.duration &&
            is_valid_slot s (fortnight_pairs.getD c.1 (0, 0)).2 c.2.1 (Int.ofNat c.2.2)
              m.duration) = true
      · have hmem2 : fortnight_pairs.getD c.1 (0, 0) ∈ fortnight_pairs := by
          have hlt := candList_fst_lt _ _ _ _ _ c hcand
          rw [hfreq] at hlt
          rw [if_pos rfl] at hlt
          have h2 : c.1 = 0 ∨ c.1 = 1 := by omega
          rcases h2 with h2 | h2 <;> rw [h2] <;> decide
        unfold commitFortnight at h
        rcases hfind : fortnight_pairs.find? (fun pr =>
            is_valid_slot s pr.1 c.2.1 (Int.ofNat c.2.2) m.duration &&
            is_valid_slot s pr.2 c.2.1 (Int.ofNat c.2.2) m.duration) with _ | pr2
        · exact absurd hpair (by simpa using List.find?_eq_none.mp hfind _ hmem2)
        · rw [hfind] at h
          simp at h
      · rw [if_neg hpair] at hok
        rw [hfreq] at hok
        simp [occurrencesOf] at hok
    next hfreq =>
      -- non-fortnightly: the search counted enough valid weeks
      simp only [evalCand, if_neg hfreq] at hok
      obtain ⟨sub, hsl, hpred, hbound⟩ := weekScan_count_bound s (fun _ => false) c.2.1
        (Int.ofNat c.2.2) m.duration (occurrencesOf m.frequency) [0, 1, 2, 3] (0, 0)
      have htot := commitLoop_total m c.2.1 c.2.2 m.duration (shuffleWeeks rnd)
        (occurrencesOf m.frequency) s (fun _ => false) sub
        (hsl.nodup (by decide))
        (fun x hx => ⟨((shuffleWeeks_perm rnd).mem_iff).mpr (hsl.subset hx), rfl,
          (hpred x hx).2⟩)
        (by omega)
      rw [htot] at h
      exact Bool.noConfusion h

/-- **C7** counterexample: the claim asserts a reachable state and request
for which `add_meeting` returns false with the scheduler changed; no such
state, request and random stream exist. -/
theorem no_partial_commit_state_exists :
    ¬ ∃ (s : MeetingScheduler) (m : Meeting) (rnd : List Nat),
      (add_meeting s m rnd).1 = false ∧ (add_meeting s m rnd).2 ≠ s := by
  rintro ⟨s, m, rnd, h1, h2⟩
  exact h2 (add_meeting_false_no_change s m rnd h1)

/-- **C7** (amended).  The non-fortnightly commit loop does return `false`
without rolling back earlier occurrences when no valid week remains — but
that return is unreachable in a single call: whenever the search phase
selects a candidate the commit loop finds enough valid weeks, so whenever
`add_meeting` returns false the scheduler state is exactly as before. -/
theorem commit_failure_unreachable (s : MeetingScheduler) (m : Meeting) (rnd : List Nat) :
    (∀ (day ti : Nat) (dur : Int) (weeks : List Nat) (n : Nat)
        (s1 : MeetingScheduler) (asg : Nat → Bool),
      findWeek s1 asg weeks day (Int.ofNat ti) dur = none →
      commitLoop m day ti dur weeks (n + 1) s1 asg = (false, s1)) ∧
    ((add_meeting s m rnd).1 = false → (add_meeting s m rnd).2 = s) := by
  constructor
  · intro day ti dur weeks n s1 asg hn
    unfold commitLoop
    rw [hn]
  · exact add_meeting_false_no_change s m rnd

/-- Witness for C7 at a concrete failing request. -/
theorem commit_failure_unreachable_witness :
    (add_meeting init_scheduler meetTooLong [0, 0, 0]).2 = init_scheduler :=
  (commit_failure_unreachable init_scheduler meetTooLong [0, 0, 0]).2
    (by with_unfolding_all rfl)

theorem commitLoop_success_entries (m : Meeting) (day ti : Nat) (dur : Int)
    (weeks : List Nat) :
    ∀ (n : Nat) (s : MeetingScheduler) (asg : Nat → Bool) (s1 : MeetingScheduler),
      commitLoop m day ti dur weeks n s asg = (true, s1) →
      ∃ ws : List Nat, ws.length = n ∧ ws.Nodup ∧
        (∀ w ∈ ws, w ∈ weeks ∧ asg w = false) ∧
        s1.schedule = s.schedule ++ ws.map (fun w => mkEntry m w day ti dur) := by
  intro n
  induction n with
  | zero =>
    intro s asg s1 h
    injection h with _ h2
    subst h2
    exact ⟨[], rfl, by simp, by simp, by simp⟩
  | succ k ih =>
    intro s asg s1 h
    unfold commitLoop at h
    rcases hfw : findWeek s asg weeks day (Int.ofNat ti) dur with _ | w
    · rw [hfw] at h
      exact absurd h (by simp)
    · rw [hfw] at h
      obtain ⟨ws, hlen, hnd, hmem, hsch⟩ := ih _ _ _ h
      obtain ⟨hwmem, hwasg, -⟩ := findWeek_some _ _ _ _ _ _ _ hfw
      refine ⟨w :: ws, by simp [hlen], ?_, ?_, ?_⟩
      · rw [List.nodup_cons]
        refine ⟨fun hin => ?_, hnd⟩
        have := (hmem w hin).2
        simp at this
      · intro x hx
        rcases List.mem_cons.mp hx with rfl | hx
        · exact ⟨hwmem, hwasg⟩
        · have h2 := hmem x hx
          refine ⟨h2.1, ?_⟩
          have h3 := h2.2
          by_cases hxw : x = w
          · subst hxw; simp at h3
          · simpa [hxw] using h3
      · rw [hsch]
        simp [applyOcc]

/-- **C6** (confirmed).  A successful weekly `add_meeting` appends exactly 4
schedule entries whose weeks are a permutation of `{0,1,2,3}` (each week used
exactly once) and which all share the same day, start slot, and duration. -/
theorem add_meeting_weekly_four_entries (s : MeetingScheduler) (m : Meeting)
    (rnd : List Nat) (hfreq : m.frequency = "weekly")
    (h : (add_meeting s m rnd).1 = true) :
    ∃ (day ti : Nat) (ws : List Nat), ws.Perm [0, 1, 2, 3] ∧
      (add_meeting s m rnd).2.schedule =
        s.schedule ++ ws.map (fun w => mkEntry m w day ti m.duration) := by
  simp only [add_meeting] at h ⊢
  split at h
  next heq => simp at h
  next c heq =>
    rw [if_neg (by rw [hfreq]; decide)] at h ⊢
    rcases hcl : commitLoop m c.2.1 c.2.2 m.duration (shuffleWeeks rnd)
      (occurrencesOf m.frequency) s (fun _ => false) with ⟨b, s1⟩
    rw [hcl] at h
    obtain ⟨ws, hlen, hnd, hmem, hsch⟩ :=
      commitLoop_success_entries m c.2.1 c.2.2 m.duration (shuffleWeeks rnd) _ s
        (fun _ => false) s1 (by rw [hcl, show b = true from h])
    refine ⟨c.2.1, c.2.2, ws, ?_, by simp only [hcl]; exact hsch⟩
    have hsub : ws ⊆ [0, 1, 2, 3] := fun x hx =>
      ((shuffleWeeks_perm rnd).mem_iff).mp ((hmem x hx).1)
    refine (List.subperm_of_subset hnd hsub).perm_of_length_le ?_
    rw [hlen, hfreq]
    decide

/-- Witness for C6: a concrete successful weekly placement. -/
theorem add_meeting_weekly_four_entries_witness :
    ∃ (day ti : Nat) (ws : List Nat), ws.Perm [0, 1, 2, 3] ∧
      (add_meeting init_scheduler meetMonWeekly0900 [0, 0, 0]).2.schedule =
        init_scheduler.schedule ++
          ws.map (fun w => mkEntry meetMonWeekly0900 w day ti meetMonWeekly0900.duration) :=
  add_meeting_weekly_four_entries init_scheduler meetMonWeekly0900 [0, 0, 0] rfl
    (by with_unfolding_all rfl)

/-! ## Claim C2: fortnightly placement -/

/-- **C2** (confirmed).  A successful fortnightly `add_meeting` appends
exactly two entries sharing day, start slot and duration, committed to the
first pairing in canonical order `{0,2}` then `{1,3}` whose both weeks are
valid; on failure nothing is committed (in particular never a single-week
occurrence). -/
theorem add_meeting_fortnightly_pairing (s : MeetingScheduler) (m : Meeting)
    (rnd : List Nat) (hfreq : m.frequency = "fortnightly") :
    ((add_meeting s m rnd).1 = true →
      ∃ e1 e2 : ScheduleEntry,
        (add_meeting s m rnd).2.schedule = s.schedule ++ [e1, e2] ∧
        e1.day = e2.day ∧ e1.start_time = e2.start_time ∧
        e1.duration = m.duration ∧ e2.duration = m.duration ∧
        ((is_valid_slot s 0 e1.day (Int.ofNat e1.start_time) m.duration &&
            is_valid_slot s 2 e1.day (Int.ofNat e1.start_time) m.duration) = true →
          e1.week = 0 ∧ e2.week = 2) ∧
        ((is_valid_slot s 0 e1.day (Int.ofNat e1.start_time) m.duration &&
            is_valid_slot s 2 e1.day (Int.ofNat e1.start_time) m.duration) ≠ true →
          e1.week = 1 ∧ e2.week = 3 ∧
          is_valid_slot s 1 e1.day (Int.ofNat e1.start_time) m.duration = true ∧
          is_valid_slot s 3 e1.day (Int.ofNat e1.start_time) m.duration = true)) ∧
    ((add_meeting s m rnd).1 = false → (add_meeting s m rnd).2 = s) := by
  refine ⟨?_, add_meeting_false_no_change s m rnd⟩
  intro hsucc
  simp only [add_meeting] at hsucc
  split at hsucc
  next heq => simp at hsucc
  next c heq =>
    rw [if_pos hfreq] at hsucc
    have hstep : add_meeting s m rnd = commitFortnight s m c.2.1 c.2.2 m.duration := by
      simp only [add_meeting, heq]
      rw [if_pos hfreq]
    by_cases hp0 : (is_valid_slot s 0 c.2.1 (Int.ofNat c.2.2) m.duration &&
        is_valid_slot s 2 c.2.1 (Int.ofNat c.2.2) m.duration) = true
    · have hfind : fortnight_pairs.find? (fun pr =>
          is_valid_slot s pr.1 c.2.1 (Int.ofNat c.2.2) m.duration &&
          is_valid_slot s pr.2 c.2.1 (Int.ofNat c.2.2) m.duration) = some (0, 2) := by
        simp only [fortnight_pairs, List.find?]
        rw [hp0]
      have hres : add_meeting s m rnd =
          (true, applyOcc (applyOcc s m c.2.1 c.2.2 m.duration 0) m c.2.1 c.2.2
            m.duration 2) := by
        rw [hstep]
        unfold commitFortnight
        rw [hfind]
      refine ⟨mkEntry m 0 c.2.1 c.2.2 m.duration, mkEntry m 2 c.2.1 c.2.2 m.duration,
        ?_, rfl, rfl, rfl, rfl, fun _ => ⟨rfl, rfl⟩, fun hne => absurd hp0 hne⟩
      rw [hres]
      simp [applyOcc]
    · by_cases hp1 : (is_valid_slot s 1 c.2.1 (Int.ofNat c.2.2) m.duration &&
          is_valid_slot s 3 c.2.1 (Int.ofNat c.2.2) m.duration) = true
      · have hfind : fortnight_pairs.find? (fun pr =>
            is_valid_slot s pr.1 c.2.1 (Int.ofNat c.2.2) m.duration &&
            is_valid_slot s pr.2 c.2.1 (Int.ofNat c.2.2) m.duration) = some (1, 3) := by
          simp only [fortnight_pairs, List.find?]
          rw [Bool.eq_false_iff.mpr hp0, hp1]
        have hres : add_meeting s m rnd =
            (true, applyOcc (applyOcc s m c.2.1 c.2.2 m.duration 1) m c.2.1 c.2.2
              m.duration 3) := by
          rw [hstep]
          unfold commitFortnight
          rw [hfind]
        have hp1c : is_valid_slot s 1 c.2.1 (Int.ofNat c.2.2) m.duration = true ∧
            is_valid_slot s 3 c.2.1 (Int.ofNat c.2.2) m.duration = true := by
          simpa using hp1
        refine ⟨mkEntry m 1 c.2.1 c.2.2 m.duration, mkEntry m 3 c.2.1 c.2.2 m.duration,
          ?_, rfl, rfl, rfl, rfl, fun hpos => absurd hpos hp0,
          fun _ => ⟨rfl, rfl, hp1c.1, hp1c.2⟩⟩
        rw [hres]
        simp [applyOcc]
      · have hfind : fortnight_pairs.find? (fun pr =>
            is_valid_slot s pr.1 c.2.1 (Int.ofNat c.2.2) m.duration &&
            is_valid_slot s pr.2 c.2.1 (Int.ofNat c.2.2) m.duration) = none := by
          simp only [fortnight_pairs, List.find?]
          rw [Bool.eq_false_iff.mpr hp0, Bool.eq_false_iff.mpr hp1]
        unfold commitFortnight at hsucc
        rw [hfind] at hsucc
        simp at hsucc

/-- Witness for C2: a concrete successful fortnightly placement (both
pairings free, so `{0,2}` is committed). -/
theorem add_meeting_fortnightly_pairing_witness :
    ∃ e1 e2 : ScheduleEntry,
      (add_meeting init_scheduler meetMonFort [0, 0, 0]).2.schedule =
        init_scheduler.schedule ++ [e1, e2] ∧
      e1.day = e2.day ∧ e1.start_time = e2.start_time ∧
      e1.duration = meetMonFort.duration ∧ e2.duration = meetMonFort.duration ∧
      ((is_valid_slot init_scheduler 0 e1.day (Int.ofNat e1.start_time)
            meetMonFort.duration &&
          is_valid_slot init_scheduler 2 e1.day (Int.ofNat e1.start_time)
            meetMonFort.duration) = true →
        e1.week = 0 ∧ e2.week = 2) ∧
      ((is_valid_slot init_scheduler 0 e1.day (Int.ofNat e1.start_time)
            meetMonFort.duration &&
          is_valid_slot init_scheduler 2 e1.day (Int.ofNat e1.start_time)
            meetMonFort.duration) ≠ true →
        e1.week = 1 ∧ e2.week = 3 ∧
        is_valid_slot init_scheduler 1 e1.day (Int.ofNat e1.start_time)
          meetMonFort.duration = true ∧
        is_valid_slot init_scheduler 3 e1.day (Int.ofNat e1.start_time)
          meetMonFort.duration = true) :=
  (add_meeting_fortnightly_pairing init_scheduler meetMonFort [0, 0, 0] rfl).1
    (by with_unfolding_all rfl)

/-! ## Claim C10: unknown frequency labels -/

theorem list_find_congr {α : Type} (p q : α → Bool) (h : ∀ a, p a = q a) :
    ∀ l : List α, l.find? p = l.find? q := by
  intro l
  induction l with
  | nil => rfl
  | cons a l ih =>
    rw [List.find?_cons, List.find?_cons, h a, ih]

theorem foldl_setBlocked_congr (w day ti : Nat) :
    ∀ (L : List Nat) (g g1 : Grid), (∀ x y z, g x y z = g1 x y z) →
      ∀ x y z, (L.foldl (fun g2 i => setBlocked g2 w day (ti + i)) g) x y z =
        (L.foldl (fun g2 i => setBlocked g2 w day (ti + i)) g1) x y z := by
  intro L
  induction L with
  | nil => intro g g1 h x y z; exact h x y z
  | cons a L ih =>
    intro g g1 h x y z
    rw [List.foldl_cons, List.foldl_cons]
    refine ih _ _ (fun x1 y1 z1 => ?_) x y z
    unfold setBlocked
    rw [h x1 y1 z1]

theorem commitLoop_fst_congr (m m1 : Meeting) (day ti : Nat) (dur : Int)
    (weeks : List Nat) :
    ∀ (n : Nat) (s s1 : MeetingScheduler) (asg : Nat → Bool),
      (∀ x y z, s.blocked_slots x y z = s1.blocked_slots x y z) →
      (commitLoop m day ti dur weeks n s asg).1 =
        (commitLoop m1 day ti dur weeks n s1 asg).1 := by
  intro n
  induction n with
  | zero => intro s s1 asg _; rfl
  | succ k ih =>
    intro s s1 asg h
    have hfw : findWeek s asg weeks day (Int.ofNat ti) dur =
        findWeek s1 asg weeks day (Int.ofNat ti) dur := by
      refine list_find_congr _ _ (fun w => ?_) weeks
      rw [is_valid_slot_state_congr s s1 w day _ _ (fun i => h w day i)]
    unfold commitLoop
    rw [hfw]
    rcases hx : findWeek s1 asg weeks day (Int.ofNat ti) dur with _ | w
    · rfl
    · refine ih _ _ _ (fun x y z => ?_)
      exact foldl_setBlocked_congr w day ti _ _ _ h x y z

/-- **C10** (confirmed).  Any frequency label other than `"weekly"` and
`"fortnightly"` — including labels outside the four documented ones — is not
rejected: the occurrence count is 1 (as for `third_week`/`monthly`), the
call succeeds exactly when the same request with frequency `"monthly"`
would, and on success exactly one entry (carrying the original label) is
appended. -/
theorem add_meeting_unknown_frequency (s : MeetingScheduler) (m : Meeting)
    (rnd : List Nat) (h1 : m.frequency ≠ "weekly") (h2 : m.frequency ≠ "fortnightly") :
    occurrencesOf m.frequency = 1 ∧
    (add_meeting s m rnd).1 = (add_meeting s { m with frequency := "monthly" } rnd).1 ∧
    ((add_meeting s m rnd).1 = true →
      ∃ e : ScheduleEntry, (add_meeting s m rnd).2.schedule = s.schedule ++ [e] ∧
        e.frequency = m.frequency ∧ e.duration = m.duration) := by
  have hocc : occurrencesOf m.frequency = 1 := by
    simp [occurrencesOf, h1, h2]
  have hoccm : occurrencesOf "monthly" = 1 := by decide
  have hokeq : candOk s m.frequency m.duration (occurrencesOf m.frequency) =
      candOk s "monthly" m.duration (occurrencesOf "monthly") := by
    funext c
    unfold candOk evalCand
    rw [if_neg h2, if_neg (by decide), hocc, hoccm]
  have hscoreeq : candScore s m.frequency m.duration (occurrencesOf m.frequency) =
      candScore s "monthly" m.duration (occurrencesOf "monthly") := by
    funext c
    unfold candScore evalCand
    rw [if_neg h2, if_neg (by decide), hocc, hoccm]
  have hclist : ∀ fdi fti mp, candList s { m with frequency := "monthly" } fdi fti mp =
      candList s m fdi fti mp := fun _ _ _ => rfl
  refine ⟨hocc, ?_, ?_⟩
  · simp only [add_meeting]
    simp only [hokeq, hscoreeq]
    simp only [if_neg h2, if_neg (show ("monthly" : String) ≠ "fortnightly" by decide)]
    simp only [hocc, hoccm]
    simp only [hclist]
    rcases hsel : (selMin (candOk s "monthly" m.duration 1)
        (candScore s "monthly" m.duration 1)
        (candList s m (if m.fixed_day.isEmpty = true then -1 else find_day_index m.fixed_day)
          (if m.fixed_time.isEmpty = true then -1 else find_slot_index m.fixed_time) 1)
        (1000000000, none)).2 with _ | c
    · rfl
    · exact commitLoop_fst_congr m _ c.2.1 c.2.2 m.duration (shuffleWeeks rnd) 1 s s
        (fun _ => false) (fun _ _ _ => rfl)
  · intro h
    simp only [add_meeting] at h ⊢
    split at h
    next heq => simp at h
    next c heq =>
      rw [if_neg h2] at h ⊢
      rw [hocc] at h ⊢
      rcases hcl : commitLoop m c.2.1 c.2.2 m.duration (shuffleWeeks rnd) 1 s
        (fun _ => false) with ⟨b, s1⟩
      rw [hcl] at h
      obtain ⟨ws, hlen, _, _, hsch⟩ :=
        commitLoop_success_entries m c.2.1 c.2.2 m.duration (shuffleWeeks rnd) 1 s
          (fun _ => false) s1 (by rw [hcl, show b = true from h])
      rcases ws with _ | ⟨w, ws1⟩
      · simp at hlen
      · rcases ws1 with _ | _
        · exact ⟨mkEntry m w c.2.1 c.2.2 m.duration, by simp only [hcl]; simpa using hsch,
            rfl, rfl⟩
        · simp at hlen

/-- Witness for C10 with the label `"daily"`. -/
theorem add_meeting_unknown_frequency_witness :
    (add_meeting init_scheduler meetDaily [0, 0, 0]).1 =
      (add_meeting init_scheduler { meetDaily with frequency := "monthly" } [0, 0, 0]).1 ∧
    ∃ e : ScheduleEntry,
      (add_meeting init_scheduler meetDaily [0, 0, 0]).2.schedule =
        init_scheduler.schedule ++ [e] ∧
      e.frequency = meetDaily.frequency ∧ e.duration = meetDaily.duration := by
  have h := add_meeting_unknown_frequency init_scheduler meetDaily [0, 0, 0]
    (by decide) (by decide)
  exact ⟨h.2.1, h.2.2 (by with_unfolding_all rfl)⟩

/-! ## Claim C5: the selection rule -/

theorem pairwise_of_chain4 (R : Nat → Nat → Prop)
    (htrans : ∀ x y z, R x y → R y z → R x z) (a b c d : Nat)
    (h1 : R a b) (h2 : R b c) (h3 : R c d) : List.Pairwise R [a, b, c, d] := by
  have h13 := htrans _ _ _ h1 h2
  have h14 := htrans _ _ _ h13 h3
  have h24 := htrans _ _ _ h2 h3
  refine List.Pairwise.cons ?_ (List.Pairwise.cons ?_ (List.Pairwise.cons ?_
    (List.Pairwise.cons (by simp) List.Pairwise.nil)))
  · intro x hx
    rcases List.mem_cons.mp hx with rfl | hx
    · exact h1
    rcases List.mem_cons.mp hx with rfl | hx
    · exact h13
    rcases List.mem_cons.mp hx with rfl | hx
    · exact h14
    · simp at hx
  · intro x hx
    rcases List.mem_cons.mp hx with rfl | hx
    · exact h2
    rcases List.mem_cons.mp hx with rfl | hx
    · exact h24
    · simp at hx
  · intro x hx
    rcases List.mem_cons.mp hx with rfl | hx
    · exact h3
    · simp at hx

/-- The unrolled bubble sort of the day order is a permutation of
`{0,1,2,3}`, sorted ascending by load, with ties in original day order
(stability: only strictly greater loads are swapped forward). -/
theorem sortDays_spec (th : Nat → ℚ) :
    (sortDays th).Perm [0, 1, 2, 3] ∧
    List.Pairwise (fun a b => th a ≤ th b ∧ (th a = th b → a < b)) (sortDays th) := by
  have htrans : ∀ x y z : Nat, (th x ≤ th y ∧ (th x = th y → x < y)) →
      (th y ≤ th z ∧ (th y = th z → y < z)) →
      th x ≤ th z ∧ (th x = th z → x < z) := by
    rintro x y z ⟨h1, h2⟩ ⟨h3, h4⟩
    refine ⟨le_trans h1 h3, fun h => ?_⟩
    have e1 : th x = th y := le_antisymm h1 (by rw [h]; exact h3)
    have e2 : th y = th z := by rw [← e1, h]
    exact lt_trans (h2 e1) (h4 e2)
  simp only [sortDays, ceLt, ceGt]
  split_ifs <;>
    exact ⟨by decide, pairwise_of_chain4 _ htrans _ _ _ _
      ⟨by linarith, fun h => by first | decide | (exfalso; linarith)⟩
      ⟨by linarith, fun h => by first | decide | (exfalso; linarith)⟩
      ⟨by linarith, fun h => by first | decide | (exfalso; linarith)⟩⟩

/-- Full characterization of the min-tracking fold: the chosen candidate is
the first qualifying candidate attaining the minimum score — strictly below
every earlier qualifying candidate and weakly below every later one. -/
theorem selMin_first_min {α : Type} (ok : α → Bool) (score : α → ℚ) :
    ∀ (l : List α) (mh : ℚ) (ch : Option α) (c : α),
      (selMin ok score l (mh, ch)).2 = some c →
      (ch = some c ∧ (∀ x ∈ l, ok x = true → mh ≤ score x)) ∨
      (∃ l1 l2, l = l1 ++ c :: l2 ∧ ok c = true ∧ score c < mh ∧
        (∀ x ∈ l1, ok x = true → score c < score x) ∧
        (∀ x ∈ l2, ok x = true → score c ≤ score x)) := by
  intro l
  induction l with
  | nil =>
    intro mh ch c h
    simp only [selMin] at h
    exact Or.inl ⟨h, by simp⟩
  | cons a l ih =>
    intro mh ch c h
    unfold selMin at h
    split at h
    next hcond =>
      rcases ih _ _ _ h with ⟨hch, hall⟩ | ⟨l1, l2, hsplit, hok, hlt, hearl, hlater⟩
      · cases hch
        refine Or.inr ⟨[], l, by simp, hcond.1, hcond.2, by simp, ?_⟩
        exact hall
      · refine Or.inr ⟨a :: l1, l2, by rw [hsplit]; rfl, hok, lt_trans hlt hcond.2, ?_, hlater⟩
        intro x hx hxok
        rcases List.mem_cons.mp hx with rfl | hx
        · exact hlt
        · exact hearl x hx hxok
    next hcond =>
      have hstep : ∀ y, ok y = true → ¬(score y < mh) → mh ≤ score y :=
        fun y _ hy => le_of_not_lt hy
      have hna : ok a = true → mh ≤ score a := by
        intro hoka
        by_contra hcon
        exact hcond ⟨hoka, lt_of_not_le hcon⟩
      rcases ih _ _ _ h with ⟨hch, hall⟩ | ⟨l1, l2, hsplit, hok, hlt, hearl, hlater⟩
      · refine Or.inl ⟨hch, ?_⟩
        intro x hx hxok
        rcases List.mem_cons.mp hx with rfl | hx
        · exact hna hxok
        · exact hall x hx hxok
      · refine Or.inr ⟨a :: l1, l2, by rw [hsplit]; rfl, hok, hlt, ?_, hlater⟩
        intro x hx hxok
        rcases List.mem_cons.mp hx with rfl | hx
        · exact lt_of_lt_of_le hlt (hna hxok)
        · exact hearl x hx hxok

set_option maxRecDepth 40000 in
/-- **C5** counterexample: in the reachable state `schedC5`, for the free
fortnightly request, the claim's selection rule (first minimizer in the
single day-then-time order among candidates whose valid-week count reaches
2) picks Monday slot 0 — but the code, which re-enumerates the day/time
candidates once per fortnight pairing with the `{0,2}` pass first, commits
Monday slot 1. -/
theorem selection_tiebreak_deviates :
    specSelectionRule schedC5 meetFortFree = some (0, 0) ∧
    schedC5.schedule.length = 4 ∧
    (add_meeting schedC5 meetFortFree [3, 2, 1]).1 = true ∧
    ((add_meeting schedC5 meetFortFree [3, 2, 1]).2.schedule.getD 4
      (mkEntry meetFortFree 9 9 9 0)).day = 0 ∧
    ((add_meeting schedC5 meetFortFree [3, 2, 1]).2.schedule.getD 4
      (mkEntry meetFortFree 9 9 9 0)).start_time = 1 := by
  refine ⟨?_, ?_, ?_, ?_, ?_⟩ <;> with_unfolding_all rfl

/-- **C5** (amended).  The day candidates are iterated in a stable
ascending-by-load permutation of the four days (collapsed to the fixed day),
and on success the committed day/time comes from a candidate of the code's
evaluation sequence `candList` — which repeats the day-then-time scan once
per fortnight pairing (`{0,2}` pass first) for fortnightly requests and is
the single day-then-time scan otherwise — that qualifies and strictly beats
every earlier qualifying candidate and weakly beats every later one:
the first minimizer of `avg_hours / valid_weeks` in evaluation order. -/
theorem add_meeting_selection_rule (s : MeetingScheduler) (m : Meeting) (rnd : List Nat) :
    ((sortDays s.total_hours).Perm [0, 1, 2, 3] ∧
      List.Pairwise (fun a b => s.total_hours a ≤ s.total_hours b ∧
        (s.total_hours a = s.total_hours b → a < b)) (sortDays s.total_hours)) ∧
    ((add_meeting s m rnd).1 = true →
      ∃ (p day ti : Nat) (e : ScheduleEntry) (rest : List ScheduleEntry)
        (l1 l2 : List (Nat × Nat × Nat)),
        (add_meeting s m rnd).2.schedule = s.schedule ++ e :: rest ∧
        e.day = day ∧ e.start_time = ti ∧
        candList s m (if m.fixed_day.isEmpty then -1 else find_day_index m.fixed_day)
            (if m.fixed_time.isEmpty then -1 else find_slot_index m.fixed_time)
            (if m.frequency = "fortnightly" then 2 else 1) =
          l1 ++ (p, day, ti) :: l2 ∧
        candOk s m.frequency m.duration (occurrencesOf m.frequency) (p, day, ti) = true ∧
        candScore s m.frequency m.duration (occurrencesOf m.frequency) (p, day, ti) <
          1000000000 ∧
        (∀ x ∈ l1, candOk s m.frequency m.duration (occurrencesOf m.frequency) x = true →
          candScore s m.frequency m.duration (occurrencesOf m.frequency) (p, day, ti) <
            candScore s m.frequency m.duration (occurrencesOf m.frequency) x) ∧
        (∀ x ∈ l2, candOk s m.frequency m.duration (occurrencesOf m.frequency) x = true →
          candScore s m.frequency m.duration (occurrencesOf m.frequency) (p, day, ti) ≤
            candScore s m.frequency m.duration (occurrencesOf m.frequency) x)) := by
  refine ⟨sortDays_spec s.total_hours, ?_⟩
  intro h
  simp only [add_meeting] at h ⊢
  split at h
  next heq => simp at h
  next c heq =>
    rcases selMin_first_min _ _ _ _ _ _ heq with ⟨hch, -⟩ |
      ⟨l1, l2, hsplit, hok, hlt, hearl, hlater⟩
    · exact absurd hch (by simp)
    obtain ⟨cp, cday, cti⟩ := c
    by_cases hfreq : m.frequency = "fortnightly"
    · rw [if_pos hfreq] at h
      rw [if_pos hfreq] at hsplit
      simp only [if_pos hfreq]
      unfold commitFortnight at h ⊢
      rcases hfind : fortnight_pairs.find? (fun pr =>
          is_valid_slot s pr.1 cday (Int.ofNat cti) m.duration &&
          is_valid_slot s pr.2 cday (Int.ofNat cti) m.duration) with _ | pr
      · rw [hfind] at h
        simp at h
      · simp only [hfind]
        refine ⟨cp, cday, cti, mkEntry m pr.1 cday cti m.duration,
          [mkEntry m pr.2 cday cti m.duration], l1, l2, ?_, rfl, rfl, hsplit,
          hok, hlt, hearl, hlater⟩
        simp [applyOcc]
    · rw [if_neg hfreq] at h
      rw [if_neg hfreq] at hsplit
      simp only [if_neg hfreq]
      rcases hcl : commitLoop m cday cti m.duration (shuffleWeeks rnd)
        (occurrencesOf m.frequency) s (fun _ => false) with ⟨b, s1⟩
      rw [hcl] at h
      obtain ⟨ws, hlen, -, -, hsch⟩ :=
        commitLoop_success_entries m cday cti m.duration (shuffleWeeks rnd) _ s
          (fun _ => false) s1 (by rw [hcl, show b = true from h])
      have hpos : 1 ≤ occurrencesOf m.frequency := by
        unfold occurrencesOf
        split_ifs <;> norm_num
      rcases ws with _ | ⟨w, ws1⟩
      · rw [← hlen] at hpos
        simp at hpos
      · refine ⟨cp, cday, cti, mkEntry m w cday cti m.duration,
          ws1.map (fun w1 => mkEntry m w1 cday cti m.duration), l1, l2, ?_, rfl, rfl,
          hsplit, hok, hlt, hearl, hlater⟩
        simp only [hcl]
        simpa using hsch

/-- Witness for the amended C5 at a concrete successful placement. -/
theorem add_meeting_selection_rule_witness :
    ∃ (p day ti : Nat) (e : ScheduleEntry) (rest : List ScheduleEntry)
      (l1 l2 : List (Nat × Nat × Nat)),
      (add_meeting init_scheduler meetMonFort [0, 0, 0]).2.schedule =
        init_scheduler.schedule ++ e :: rest ∧
      e.day = day ∧ e.start_time = ti ∧
      candList init_scheduler meetMonFort
          (if meetMonFort.fixed_day.isEmpty then -1
            else find_day_index meetMonFort.fixed_day)
          (if meetMonFort.fixed_time.isEmpty then -1
            else find_slot_index meetMonFort.fixed_time)
          (if meetMonFort.frequency = "fortnightly" then 2 else 1) =
        l1 ++ (p, day, ti) :: l2 ∧
      candOk init_scheduler meetMonFort.frequency meetMonFort.duration
        (occurrencesOf meetMonFort.frequency) (p, day, ti) = true ∧
      candScore init_scheduler meetMonFort.frequency meetMonFort.duration
        (occurrencesOf meetMonFort.frequency) (p, day, ti) < 1000000000 ∧
      (∀ x ∈ l1, candOk init_scheduler meetMonFort.frequency meetMonFort.duration
          (occurrencesOf meetMonFort.frequency) x = true →
        candScore init_scheduler meetMonFort.frequency meetMonFort.duration
            (occurrencesOf meetMonFort.frequency) (p, day, ti) <
          candScore init_scheduler meetMonFort.frequency meetMonFort.duration
            (occurrencesOf meetMonFort.frequency) x) ∧
      (∀ x ∈ l2, candOk init_scheduler meetMonFort.frequency meetMonFort.duration
          (occurrencesOf meetMonFort.frequency) x = true →
        candScore init_scheduler meetMonFort.frequency meetMonFort.duration
            (occurrencesOf meetMonFort.frequency) (p, day, ti) ≤
          candScore init_scheduler meetMonFort.frequency meetMonFort.duration
            (occurrencesOf meetMonFort.frequency) x) :=
  (add_meeting_selection_rule init_scheduler meetMonFort [0, 0, 0]).2
    (by with_unfolding_all rfl)

end CWeb
